import Mathlib

/-!
Shallow embedding of `src/settings.rs` of toml-bombadil: the hierarchical
configuration-resolution subsystem (root settings loading, dotfiles-root
resolution, import resolution and the merge engine), together with proofs
of the specification claims about it.
-/

set_option maxHeartbeats 1000000

namespace Bombadil

/-- Model of a filesystem path (`std::path::PathBuf`): an absolute flag and a
list of components. Only `is_absolute`, `join` and existence are used by the
code under verification. -/
structure FsPath where
  absolute : Bool
  components : List String
deriving DecidableEq, Repr

/-- `Path::join`: if the right-hand side is absolute it replaces the whole
path, otherwise it is appended. -/
def FsPath.join (a b : FsPath) : FsPath :=
  if b.absolute then b else ⟨a.absolute, a.components ++ b.components⟩

/-- Split a character list on `/`, dropping empty components. -/
def splitSlashAux : List Char → List Char → List String
  | [], acc => if acc.isEmpty then [] else [String.mk acc.reverse]
  | c :: cs, acc =>
    if c = '/' then
      if acc.isEmpty then splitSlashAux cs []
      else String.mk acc.reverse :: splitSlashAux cs []
    else splitSlashAux cs (c :: acc)

/-- `PathBuf::from(string)`: a path string starting with `/` is absolute; the
components are the non-empty `/`-separated pieces. -/
def FsPath.fromString (s : String) : FsPath :=
  ⟨(match s.data with | '/' :: _ => true | _ => false), splitSlashAux s.data []⟩

/-- First-match association-list lookup, modelling `HashMap` access for the
maps of the settings model (TOML tables cannot carry duplicate keys). -/
def lookupKV {κ α : Type} [DecidableEq κ] : List (κ × α) → κ → Option α
  | [], _ => none
  | (k, v) :: rest, q => if k = q then some v else lookupKV rest q

/-- `HashMap::insert` on the association-list model: replace the first entry
with the given key in place, or append the pair at the end. -/
def insertKV {κ α : Type} [DecidableEq κ] : List (κ × α) → κ → α → List (κ × α)
  | [], k, v => [(k, v)]
  | (k', v') :: rest, k, v =>
    if k' = k then (k, v) :: rest else (k', v') :: insertKV rest k v

/-- `HashMap::extend`: insert every pair of the second map into the first,
overwriting on key collision. -/
def extendKV {κ α : Type} [DecidableEq κ] (m adds : List (κ × α)) : List (κ × α) :=
  adds.foldl (fun acc kv => insertKV acc kv.1 kv.2) m

/-- A TOML value as produced by the `config` crate once a file has parsed
syntactically. -/
inductive Toml where
  | str (s : String)
  | table (kvs : List (String × Toml))
  | arr (xs : List Toml)

/-- Modelled from the spec: `Dot` lives in `src/dots.rs`, which is not among
the sources; the spec treats it "as an opaque value type", so the model keeps
the raw TOML value it was deserialized from. -/
structure Dot where
  raw : Toml

/-- Modelled from the spec: `DotOverride` is the per-entry override
representation from `src/dots.rs`, likewise treated as an opaque value type. -/
structure DotOverride where
  raw : Toml

/-- The default profile (`ActiveProfile`): dot entries, hooks and vars. -/
structure ActiveProfile where
  dots : List (String × Dot)
  prehooks : List String
  posthooks : List String
  vars : List FsPath

/-- A named profile (`Profile`) meant to override the default one. -/
structure Profile where
  dots : List (String × DotOverride)
  extra_profiles : List String
  prehooks : List String
  posthooks : List String
  vars : List FsPath

/-- `ImportPath`: a single `path` field. -/
structure ImportPath where
  path : FsPath
deriving DecidableEq, Repr

/-- The global bombadil configuration (`Settings`). The Rust field `import`
is a Lean keyword, so the model names it `imports`. -/
structure Settings where
  dotfiles_dir : FsPath
  gpg_user_id : Option String
  settings : ActiveProfile
  profiles : List (String × Profile)
  imports : List ImportPath

/-- An imported configuration (`ImportedSettings`): same as `Settings` but
without `dotfiles_dir` and `gpg_user_id`. -/
structure ImportedSettings where
  settings : ActiveProfile
  profiles : List (String × Profile)
  imports : List ImportPath

/-- Content of a file on disk, as seen through `Config::merge(File::from(p))`:
either the file fails TOML-level parsing, or it parses to a TOML value. -/
inductive FileContent where
  | invalidSyntax
  | doc (d : Toml)

/-- The filesystem visible to the loader: existing directories and existing
files with their contents. -/
structure Fs where
  dirs : List FsPath
  files : List (FsPath × FileContent)

/-- The host environment: `dirs::home_dir()` and `dirs::config_dir()`. -/
structure Env where
  homeDir : Option FsPath
  configDir : Option FsPath

/-- Structured counterpart of the `anyhow`/`ConfigError` errors raised in
`settings.rs`. -/
inductive SettingsError where
  | configDirNotFound
  | configNotFound (path : FsPath)
  | fileParse (path : FsPath)
  | configFormatError
  | homeNotFound
  | dotfilesDirMissing (path : FsPath)
deriving DecidableEq, Repr

/-- A diagnostic written to stderr by `merge_imports` (`eprintln!`). -/
inductive Diag where
  | unableToFindImportFile (path : FsPath)
  | errorLoadingSettings (path : FsPath)
deriving DecidableEq, Repr

def Fs.readFile (fs : Fs) (p : FsPath) : Option FileContent :=
  lookupKV fs.files p

/-- `Path::exists`. -/
def Fs.pathExists (fs : Fs) (p : FsPath) : Bool :=
  fs.dirs.any (fun q => q = p) || (fs.readFile p).isSome

/-- `Config::new()` followed by `Config::merge(File::from(p))`: reading an
existing path yields its TOML value, or an error if the file cannot be read
or fails TOML-level parsing. -/
def Fs.readConfig (fs : Fs) (p : FsPath) : Except SettingsError Toml :=
  match fs.readFile p with
  | some (.doc d) => .ok d
  | some .invalidSyntax => .error (.fileParse p)
  | none => .error (.fileParse p)

/-! ### Deserialization (serde via the `config` crate's `try_into`)

`Settings` derives `Deserialize` with `#[serde(deny_unknown_fields)]`;
`ImportedSettings`, `ActiveProfile`, `Profile` and `ImportPath` derive it
without that attribute, so unknown keys are silently ignored there. Fields
marked `#[serde(default)]` fall back to their `Default` value when absent.
Deserialization failure is modelled as `none` (wrapped into the
"Config format error" by the callers). -/

def decodeString : Toml → Option String
  | .str s => some s
  | _ => none

def decodePath (t : Toml) : Option FsPath :=
  (decodeString t).map FsPath.fromString

def decodeStringArr : Toml → Option (List String)
  | .arr xs => xs.mapM decodeString
  | _ => none

def decodePathArr : Toml → Option (List FsPath)
  | .arr xs => xs.mapM decodePath
  | _ => none

/-- Modelled from the spec: `Dot`'s own `Deserialize` implementation lives in
`src/dots.rs`, outside the sources; the spec treats `Dot` as an opaque value
type, so its decode captures the raw TOML value. -/
def decodeDot (t : Toml) : Option Dot := some ⟨t⟩

/-- Modelled from the spec: `DotOverride` is likewise opaque. -/
def decodeDotOverride (t : Toml) : Option DotOverride := some ⟨t⟩

/-- Decode a TOML table into a string-keyed map with the given value
decoder (serde's `HashMap<String, _>`). -/
def decodeStringMap {α : Type} (f : Toml → Option α) : Toml → Option (List (String × α))
  | .table kvs => kvs.mapM (fun kv => (f kv.2).map (fun a => (kv.1, a)))
  | _ => none

/-- A field with `#[serde(default)]`: absent keys give the default, present
keys must decode. -/
def decodeFieldD {α : Type} (kvs : List (String × Toml)) (name : String)
    (f : Toml → Option α) (dflt : α) : Option α :=
  match lookupKV kvs name with
  | none => some dflt
  | some t => f t

def decodeActiveProfile : Toml → Option ActiveProfile
  | .table kvs => do
    let dots ← decodeFieldD kvs "dots" (decodeStringMap decodeDot) []
    let prehooks ← decodeFieldD kvs "prehooks" decodeStringArr []
    let posthooks ← decodeFieldD kvs "posthooks" decodeStringArr []
    let vars ← decodeFieldD kvs "vars" decodePathArr []
    some ⟨dots, prehooks, posthooks, vars⟩
  | _ => none

def decodeProfile : Toml → Option Profile
  | .table kvs => do
    let dots ← decodeFieldD kvs "dots" (decodeStringMap decodeDotOverride) []
    let extra ← decodeFieldD kvs "extra_profiles" decodeStringArr []
    let prehooks ← decodeFieldD kvs "prehooks" decodeStringArr []
    let posthooks ← decodeFieldD kvs "posthooks" decodeStringArr []
    let vars ← decodeFieldD kvs "vars" decodePathArr []
    some ⟨dots, extra, prehooks, posthooks, vars⟩
  | _ => none

/-- `ImportPath` derives a plain `Deserialize`: the `path` field is required,
other keys are ignored. -/
def decodeImportPath : Toml → Option ImportPath
  | .table kvs => (lookupKV kvs "path" >>= decodePath).map ImportPath.mk
  | _ => none

def decodeImportArr : Toml → Option (List ImportPath)
  | .arr xs => xs.mapM decodeImportPath
  | _ => none

/-- The top-level field names of the root `Settings` schema. -/
def settingsFieldNames : List String :=
  ["dotfiles_dir", "gpg_user_id", "settings", "profiles", "import"]

/-- `try_into::<Settings>()`: the root schema, with
`#[serde(deny_unknown_fields)]` — any unknown top-level key is a hard
deserialization failure. `dotfiles_dir` is required; `gpg_user_id` is an
`Option`; the remaining fields are `#[serde(default)]`. -/
def deserializeSettings : Toml → Option Settings
  | .table kvs =>
    if kvs.all (fun kv => decide (kv.1 ∈ settingsFieldNames)) then do
      let dd ← lookupKV kvs "dotfiles_dir" >>= decodePath
      let gpg ← match lookupKV kvs "gpg_user_id" with
        | none => some none
        | some t => (decodeString t).map some
      let st ← decodeFieldD kvs "settings" decodeActiveProfile ⟨[], [], [], []⟩
      let profiles ← decodeFieldD kvs "profiles" (decodeStringMap decodeProfile) []
      let imports ← decodeFieldD kvs "import" decodeImportArr []
      some ⟨dd, gpg, st, profiles, imports⟩
    else none
  | _ => none

/-- `try_into::<ImportedSettings>()`: same field set minus
`dotfiles_dir`/`gpg_user_id`, but the schema is not declared strict — unknown
top-level keys are silently ignored. -/
def deserializeImported : Toml → Option ImportedSettings
  | .table kvs => do
    let st ← decodeFieldD kvs "settings" decodeActiveProfile ⟨[], [], [], []⟩
    let profiles ← decodeFieldD kvs "profiles" (decodeStringMap decodeProfile) []
    let imports ← decodeFieldD kvs "import" decodeImportArr []
    some ⟨st, profiles, imports⟩
  | _ => none

/-! ### The operations of `impl Settings` -/

/-- Modelled from the spec: `BOMBADIL_CONFIG` is the "fixed config filename"
declared at the crate root, outside the sources. -/
def BOMBADIL_CONFIG : String := "bombadil.toml"

/-- `Settings::bombadil_config_xdg_path`: the standard config directory
joined with the fixed filename, or `ConfigDirNotFound`. -/
def Settings.bombadil_config_xdg_path (env : Env) : Except SettingsError FsPath :=
  match env.configDir with
  | none => .error .configDirNotFound
  | some cd => .ok (cd.join (FsPath.fromString BOMBADIL_CONFIG))

/-- `Settings::get_dotfiles_path`: note that the source checks
`dirs::home_dir().is_none()` first, before the absolute/relative branch. -/
def Settings.get_dotfiles_path (s : Settings) (env : Env) (fs : Fs) :
    Except SettingsError FsPath :=
  match env.homeDir with
  | none => .error .homeNotFound
  | some home =>
    let path := if s.dotfiles_dir.absolute then s.dotfiles_dir
      else home.join s.dotfiles_dir
    if fs.pathExists path then .ok path else .error (.dotfilesDirMissing path)

/-- `Settings::merge`: the in-place fold of an imported fragment into the
accumulating settings — list fields append, map fields extend (overwrite). -/
def Settings.merge (s : Settings) (sub : ImportedSettings) : Settings :=
  { s with
    settings :=
      { s.settings with
        prehooks := s.settings.prehooks ++ sub.settings.prehooks
        posthooks := s.settings.posthooks ++ sub.settings.posthooks
        vars := s.settings.vars ++ sub.settings.vars
        dots := extendKV s.settings.dots sub.settings.dots }
    imports := s.imports ++ sub.imports
    profiles := extendKV s.profiles sub.profiles }

/-- The per-entry path computation of `merge_imports`: an absolute import
path is used as-is; a relative one is joined onto
`self.get_dotfiles_path().unwrap()` — `none` models the `unwrap` panic. -/
def resolveOne (env : Env) (fs : Fs) (s : Settings) (p : FsPath) : Option FsPath :=
  if p.absolute then some p
  else match s.get_dotfiles_path env fs with
    | .ok root => some (root.join p)
    | .error _ => none

/-- Rust's `Iterator::map`/`collect` over the import list: the first
panicking element aborts the whole computation. -/
def traverseOption {α β : Type} (f : α → Option β) : List α → Option (List β)
  | [] => some []
  | x :: xs =>
    match f x with
    | none => none
    | some y => (traverseOption f xs).map (fun ys => y :: ys)

/-- The `import_paths` vector of `merge_imports`, computed up front from
the import list as it stands before any merge; `none` models the `unwrap`
panic when a relative entry is present and `get_dotfiles_path` fails. -/
def Settings.resolveImportPaths (s : Settings) (env : Env) (fs : Fs) :
    Option (List FsPath) :=
  traverseOption (resolveOne env fs s) (s.imports.map ImportPath.path)

/-- Outcome of `merge_imports`, with the attempted paths and the diagnostics
written to stderr made observable. `panicked` models the `unwrap` panic. -/
inductive MergeImportsResult where
  | panicked
  | failed (e : SettingsError) (attempted : List FsPath) (diags : List Diag)
  | ok (s : Settings) (attempted : List FsPath) (diags : List Diag)

def MergeImportsResult.isOk : MergeImportsResult → Bool
  | .ok _ _ _ => true
  | _ => false

def MergeImportsResult.consAttempt (p : FsPath) : MergeImportsResult → MergeImportsResult
  | .panicked => .panicked
  | .failed e att dg => .failed e (p :: att) dg
  | .ok s att dg => .ok s (p :: att) dg

def MergeImportsResult.consDiag (d : Diag) : MergeImportsResult → MergeImportsResult
  | .panicked => .panicked
  | .failed e att dg => .failed e att (d :: dg)
  | .ok s att dg => .ok s att (d :: dg)

/-- The `for path in import_paths` loop of `merge_imports`: a missing file or
a file that deserializes badly is only reported on stderr and skipped; but a
file that exists and fails TOML-level reading propagates immediately through
the `?` on `Config::merge`. A successful fragment is merged at once. -/
def mergeImportsGo (fs : Fs) : List FsPath → Settings → MergeImportsResult
  | [], s => .ok s [] []
  | p :: rest, s =>
    if fs.pathExists p then
      match fs.readConfig p with
      | .error e => .failed e [p] []
      | .ok d =>
        match deserializeImported d with
        | some sub => (mergeImportsGo fs rest (s.merge sub)).consAttempt p
        | none =>
          ((mergeImportsGo fs rest s).consAttempt p).consDiag (.errorLoadingSettings p)
    else
      ((mergeImportsGo fs rest s).consAttempt p).consDiag (.unableToFindImportFile p)

/-- `Settings::merge_imports`. -/
def Settings.merge_imports (s : Settings) (env : Env) (fs : Fs) : MergeImportsResult :=
  match s.resolveImportPaths env fs with
  | none => .panicked
  | some paths => mergeImportsGo fs paths s

/-- Outcome of `Settings::get`: a value, a terminal error, or a panic
propagated from `merge_imports`. -/
inductive GetResult where
  | panicked
  | error (e : SettingsError)
  | ok (s : Settings)

def GetResult.isOk : GetResult → Bool
  | .ok _ => true
  | _ => false

/-- `Settings::get`: resolve the xdg path, require the file to exist, read
and deserialize it, then run `merge_imports` (whose `Err` propagates via `?`
and whose merged state is returned on success). -/
def Settings.get (env : Env) (fs : Fs) : GetResult :=
  match Settings.bombadil_config_xdg_path env with
  | .error e => .error e
  | .ok path =>
    if fs.pathExists path then
      match fs.readConfig path with
      | .error e => .error e
      | .ok d =>
        match deserializeSettings d with
        | none => .error .configFormatError
        | some s =>
          match s.merge_imports env fs with
          | .panicked => .panicked
          | .failed e _ _ => .error e
          | .ok merged _ _ => .ok merged
    else .error (.configNotFound path)

/-! ### Association-list (HashMap model) lemmas -/

theorem lookupKV_eq_none_of_not_mem {κ α : Type} [DecidableEq κ]
    (l : List (κ × α)) (k : κ) (h : k ∉ l.map Prod.fst) : lookupKV l k = none := by
  induction l with
  | nil => rfl
  | cons kv rest ih =>
    obtain ⟨k', v'⟩ := kv
    simp only [List.map_cons, List.mem_cons, not_or] at h
    simp only [lookupKV]
    rw [if_neg (fun he => h.1 he.symm), ih h.2]

theorem lookupKV_of_mem_nodup {κ α : Type} [DecidableEq κ]
    (l : List (κ × α)) (k : κ) (v : α) (hnd : (l.map Prod.fst).Nodup)
    (hmem : (k, v) ∈ l) : lookupKV l k = some v := by
  induction l with
  | nil => exact absurd hmem (List.not_mem_nil _)
  | cons kv rest ih =>
    obtain ⟨k', v'⟩ := kv
    simp only [List.map_cons, List.nodup_cons] at hnd
    rcases List.mem_cons.mp hmem with heq | htail
    · obtain ⟨hk, hv⟩ := Prod.mk.injEq .. ▸ heq
      simp only [lookupKV, if_pos hk.symm, hv]
    · have hne : k' ≠ k := by
        intro he
        exact hnd.1 (he ▸ (List.mem_map.mpr ⟨(k, v), htail, rfl⟩))
      simp only [lookupKV, if_neg hne]
      exact ih hnd.2 htail

theorem lookupKV_insertKV_self {κ α : Type} [DecidableEq κ]
    (m : List (κ × α)) (k : κ) (v : α) : lookupKV (insertKV m k v) k = some v := by
  induction m with
  | nil => simp [insertKV, lookupKV]
  | cons kv rest ih =>
    obtain ⟨k', v'⟩ := kv
    by_cases hk : k' = k
    · simp [insertKV, if_pos hk, lookupKV]
    · simp only [insertKV, if_neg hk, lookupKV]
      exact ih

theorem lookupKV_insertKV_ne {κ α : Type} [DecidableEq κ]
    (m : List (κ × α)) (k q : κ) (v : α) (h : q ≠ k) :
    lookupKV (insertKV m k v) q = lookupKV m q := by
  induction m with
  | nil =>
    simp only [insertKV, lookupKV,
      if_neg (show ¬k = q from fun he => h he.symm)]
  | cons kv rest ih =>
    obtain ⟨k', v'⟩ := kv
    by_cases hk : k' = k
    · simp only [insertKV, if_pos hk, lookupKV]
      rw [if_neg (fun he => h he.symm), if_neg (fun he => h (hk ▸ he).symm)]
    · simp only [insertKV, if_neg hk, lookupKV]
      by_cases hq : k' = q
      · rw [if_pos hq, if_pos hq]
      · rw [if_neg hq, if_neg hq]
        exact ih

theorem extendKV_nil {κ α : Type} [DecidableEq κ] (m : List (κ × α)) :
    extendKV m [] = m := rfl

theorem extendKV_cons {κ α : Type} [DecidableEq κ]
    (m rest : List (κ × α)) (k : κ) (v : α) :
    extendKV m ((k, v) :: rest) = extendKV (insertKV m k v) rest := rfl

/-- The key-wise union with right bias: the second map's entry when its key
is present, the first map's otherwise. This is the reference semantics the
spec assigns to the merge of `dots`/`profiles`. -/
def overrideUnion {κ α : Type} [DecidableEq κ] (m f : List (κ × α)) (k : κ) : Option α :=
  match lookupKV f k with
  | some v => some v
  | none => lookupKV m k

/-- Key-wise union: in `extendKV m f` the second map's entry wins on key
collision (for `f` with `HashMap`-style unique keys). -/
theorem lookupKV_extendKV {κ α : Type} [DecidableEq κ]
    (m f : List (κ × α)) (k : κ) (hnd : (f.map Prod.fst).Nodup) :
    lookupKV (extendKV m f) k = overrideUnion m f k := by
  induction f generalizing m with
  | nil => rfl
  | cons kv rest ih =>
    obtain ⟨k1, v1⟩ := kv
    simp only [List.map_cons, List.nodup_cons] at hnd
    rw [extendKV_cons, ih _ hnd.2]
    by_cases hk : k1 = k
    · subst hk
      have hrest : lookupKV rest k1 = none :=
        lookupKV_eq_none_of_not_mem rest k1 hnd.1
      simp [overrideUnion, lookupKV, hrest, lookupKV_insertKV_self]
    · cases hrk : lookupKV rest k with
      | none =>
        simp [overrideUnion, lookupKV, if_neg hk, hrk,
          lookupKV_insertKV_ne m k1 k v1 (fun he => hk he.symm)]
      | some w => simp [overrideUnion, lookupKV, if_neg hk, hrk]

theorem insertKV_of_lookupKV {κ α : Type} [DecidableEq κ]
    (m : List (κ × α)) (k : κ) (v : α) (h : lookupKV m k = some v) :
    insertKV m k v = m := by
  induction m with
  | nil => exact absurd h (by simp [lookupKV])
  | cons kv rest ih =>
    obtain ⟨k', v'⟩ := kv
    by_cases hk : k' = k
    · simp only [lookupKV, if_pos hk, Option.some.injEq] at h
      simp [insertKV, if_pos hk, hk, h]
    · simp only [lookupKV, if_neg hk] at h
      simp [insertKV, if_neg hk, ih h]

theorem extendKV_of_lookupKV_all {κ α : Type} [DecidableEq κ]
    (f m : List (κ × α)) (h : ∀ kv ∈ f, lookupKV m kv.1 = some kv.2) :
    extendKV m f = m := by
  induction f generalizing m with
  | nil => rfl
  | cons kv rest ih =>
    obtain ⟨k1, v1⟩ := kv
    rw [extendKV_cons,
      insertKV_of_lookupKV m k1 v1 (h (k1, v1) (List.mem_cons_self _ _))]
    exact ih m (fun kv hkv => h kv (List.mem_cons_of_mem _ hkv))

/-- Replaying the same `HashMap::extend` is the identity: every key of `f` is
already present with its final value. -/
theorem extendKV_extendKV_self {κ α : Type} [DecidableEq κ]
    (m f : List (κ × α)) (hnd : (f.map Prod.fst).Nodup) :
    extendKV (extendKV m f) f = extendKV m f := by
  refine extendKV_of_lookupKV_all f (extendKV m f) (fun kv hkv => ?_)
  rw [lookupKV_extendKV m f kv.1 hnd]
  simp only [overrideUnion, lookupKV_of_mem_nodup f kv.1 kv.2 hnd hkv]

/-! ### `traverseOption` (iterator map/collect) lemmas -/

theorem traverseOption_eq_map {α β : Type} (f : α → Option β) (g : α → β)
    (l : List α) (h : ∀ x ∈ l, f x = some (g x)) :
    traverseOption f l = some (l.map g) := by
  induction l with
  | nil => rfl
  | cons x xs ih =>
    simp only [traverseOption, h x (List.mem_cons_self _ _),
      ih (fun y hy => h y (List.mem_cons_of_mem _ hy))]
    rfl

theorem traverseOption_eq_none {α β : Type} (f : α → Option β)
    (l : List α) (x : α) (hm : x ∈ l) (hx : f x = none) :
    traverseOption f l = none := by
  induction l with
  | nil => exact absurd hm (List.not_mem_nil _)
  | cons y ys ih =>
    rcases List.mem_cons.mp hm with rfl | htail
    · simp [traverseOption, hx]
    · simp only [traverseOption]
      cases hfy : f y with
      | none => rfl
      | some b => rw [ih htail]; rfl

/-! ### `merge_imports` loop lemmas -/

theorem consAttempt_ok {p : FsPath} {r : MergeImportsResult} {s' : Settings}
    {att : List FsPath} {dg : List Diag}
    (h : MergeImportsResult.consAttempt p r = .ok s' att dg) :
    ∃ att0, r = .ok s' att0 dg ∧ att = p :: att0 := by
  cases r with
  | panicked => exact MergeImportsResult.noConfusion h
  | failed e a g => exact MergeImportsResult.noConfusion h
  | ok s0 a g =>
    simp only [MergeImportsResult.consAttempt, MergeImportsResult.ok.injEq] at h
    exact ⟨a, by rw [h.1, h.2.2], h.2.1.symm⟩

theorem consDiag_ok {d : Diag} {r : MergeImportsResult} {s' : Settings}
    {att : List FsPath} {dg : List Diag}
    (h : MergeImportsResult.consDiag d r = .ok s' att dg) :
    ∃ dg0, r = .ok s' att dg0 ∧ dg = d :: dg0 := by
  cases r with
  | panicked => exact MergeImportsResult.noConfusion h
  | failed e a g => exact MergeImportsResult.noConfusion h
  | ok s0 a g =>
    simp only [MergeImportsResult.consDiag, MergeImportsResult.ok.injEq] at h
    exact ⟨g, by rw [h.1, h.2.1], h.2.2.symm⟩

/-- If the loop finishes without a propagated error, every path of its input
list was attempted, in order. -/
theorem mergeImportsGo_ok_attempted (fs : Fs) (paths : List FsPath)
    (s s' : Settings) (att : List FsPath) (dg : List Diag)
    (h : mergeImportsGo fs paths s = .ok s' att dg) : att = paths := by
  induction paths generalizing s s' att dg with
  | nil =>
    simp only [mergeImportsGo, MergeImportsResult.ok.injEq] at h
    exact h.2.1.symm
  | cons p rest ih =>
    by_cases hex : fs.pathExists p = true
    · cases hrc : fs.readConfig p with
      | error e =>
        simp only [mergeImportsGo, if_pos hex, hrc] at h
        exact MergeImportsResult.noConfusion h
      | ok d =>
        cases hds : deserializeImported d with
        | some sub =>
          simp only [mergeImportsGo, if_pos hex, hrc, hds] at h
          obtain ⟨att0, hgo, hatt⟩ := consAttempt_ok h
          rw [hatt, ih _ _ _ _ hgo]
        | none =>
          simp only [mergeImportsGo, if_pos hex, hrc, hds] at h
          obtain ⟨dg0, h2, _⟩ := consDiag_ok h
          obtain ⟨att0, hgo, hatt⟩ := consAttempt_ok h2
          rw [hatt, ih _ _ _ _ hgo]
    · simp only [mergeImportsGo, if_neg hex] at h
      obtain ⟨dg0, h2, _⟩ := consDiag_ok h
      obtain ⟨att0, hgo, hatt⟩ := consAttempt_ok h2
      rw [hatt, ih _ _ _ _ hgo]

/-- The loop only ever appends to the `import` list: whatever fragments it
merges, the initial import entries stay as a prefix of the final ones. -/
theorem mergeImportsGo_ok_imports (fs : Fs) (paths : List FsPath)
    (s s' : Settings) (att : List FsPath) (dg : List Diag)
    (h : mergeImportsGo fs paths s = .ok s' att dg) :
    ∃ t, s'.imports = s.imports ++ t := by
  induction paths generalizing s s' att dg with
  | nil =>
    simp only [mergeImportsGo, MergeImportsResult.ok.injEq] at h
    exact ⟨[], by rw [← h.1, List.append_nil]⟩
  | cons p rest ih =>
    by_cases hex : fs.pathExists p = true
    · cases hrc : fs.readConfig p with
      | error e =>
        simp only [mergeImportsGo, if_pos hex, hrc] at h
        exact MergeImportsResult.noConfusion h
      | ok d =>
        cases hds : deserializeImported d with
        | some sub =>
          simp only [mergeImportsGo, if_pos hex, hrc, hds] at h
          obtain ⟨att0, hgo, _⟩ := consAttempt_ok h
          obtain ⟨t, ht⟩ := ih _ _ _ _ hgo
          refine ⟨sub.imports ++ t, ?_⟩
          rw [ht]
          simp [Settings.merge]
        | none =>
          simp only [mergeImportsGo, if_pos hex, hrc, hds] at h
          obtain ⟨dg0, h2, _⟩ := consDiag_ok h
          obtain ⟨att0, hgo, _⟩ := consAttempt_ok h2
          exact ih _ _ _ _ hgo
    · simp only [mergeImportsGo, if_neg hex] at h
      obtain ⟨dg0, h2, _⟩ := consDiag_ok h
      obtain ⟨att0, hgo, _⟩ := consAttempt_ok h2
      exact ih _ _ _ _ hgo

/-- If no attempted existing file fails TOML-level reading, the loop returns
`ok`, having attempted every path: missing files and fragments that fail to
deserialize are only recorded as diagnostics. -/
theorem mergeImportsGo_ok_of_readable (fs : Fs) (paths : List FsPath)
    (s : Settings)
    (h : ∀ p ∈ paths, fs.pathExists p = true → ∃ d, fs.readConfig p = .ok d) :
    ∃ s' dg, mergeImportsGo fs paths s = .ok s' paths dg := by
  induction paths generalizing s with
  | nil => exact ⟨s, [], rfl⟩
  | cons p rest ih =>
    have hrest : ∀ q ∈ rest, fs.pathExists q = true → ∃ d, fs.readConfig q = .ok d :=
      fun q hq => h q (List.mem_cons_of_mem _ hq)
    by_cases hex : fs.pathExists p = true
    · obtain ⟨d, hd⟩ := h p (List.mem_cons_self _ _) hex
      cases hds : deserializeImported d with
      | some sub =>
        obtain ⟨s', dg, hgo⟩ := ih (s.merge sub) hrest
        exact ⟨s', dg, by
          simp only [mergeImportsGo, if_pos hex, hd, hds, hgo,
            MergeImportsResult.consAttempt]⟩
      | none =>
        obtain ⟨s', dg, hgo⟩ := ih s hrest
        exact ⟨s', Diag.errorLoadingSettings p :: dg, by
          simp only [mergeImportsGo, if_pos hex, hd, hds, hgo,
            MergeImportsResult.consAttempt, MergeImportsResult.consDiag]⟩
    · obtain ⟨s', dg, hgo⟩ := ih s hrest
      exact ⟨s', Diag.unableToFindImportFile p :: dg, by
        simp only [mergeImportsGo, if_neg hex, hgo,
          MergeImportsResult.consAttempt, MergeImportsResult.consDiag]⟩

/-! ### Claim C1 -/

def pathC1 : FsPath := ⟨true, ["bad.toml"]⟩
def envC1 : Env := ⟨none, none⟩
def fsC1 : Fs := ⟨[], [(pathC1, .invalidSyntax)]⟩
def settingsC1 : Settings :=
  ⟨⟨true, ["dots"]⟩, none, ⟨[], [], [], []⟩, [], [⟨pathC1⟩]⟩

/-- C1 counterexample: an import file that exists but fails TOML-level
parsing makes `merge_imports` return an `Err` (through the `?` on
`Config::merge`), so "no failure of an individual import — missing file or
malformed/unparseable file — ever causes it to return an Err" is false at
this input. -/
theorem merge_imports_err_on_unparseable_import :
    settingsC1.merge_imports envC1 fsC1 = .failed (.fileParse pathC1) [pathC1] [] ∧
    (settingsC1.merge_imports envC1 fsC1).isOk = false :=
  ⟨rfl, rfl⟩

/-- C1 (amended): `merge_imports` returns `Ok` once all resolved imports have
been attempted, and a missing import file or an import that reads as TOML but
fails to deserialize as a fragment never produces an `Err` (they are only
logged to the diagnostic channel and skipped); however an existing import
file that fails TOML-level reading propagates an `Err` immediately. -/
theorem merge_imports_ok_unless_unparseable (env : Env) (fs : Fs) (s : Settings)
    (paths : List FsPath)
    (hres : s.resolveImportPaths env fs = some paths)
    (hread : ∀ p ∈ paths, fs.pathExists p = true → ∃ d, fs.readConfig p = .ok d) :
    ∃ s' dg, s.merge_imports env fs = .ok s' paths dg := by
  obtain ⟨s', dg, hgo⟩ := mergeImportsGo_ok_of_readable fs paths s hread
  exact ⟨s', dg, by simp only [Settings.merge_imports, hres, hgo]⟩

def pMissC1 : FsPath := ⟨true, ["missing.toml"]⟩
def pBadSchemaC1 : FsPath := ⟨true, ["badschema.toml"]⟩
def fsC1w : Fs := ⟨[], [(pBadSchemaC1, .doc (.str "not a table"))]⟩
def settingsC1w : Settings :=
  ⟨⟨true, ["dots"]⟩, none, ⟨[], [], [], []⟩, [], [⟨pMissC1⟩, ⟨pBadSchemaC1⟩]⟩

/-- C1 witness: one missing import and one import that deserializes badly —
the operation still returns `Ok`, both paths having been attempted. -/
theorem merge_imports_ok_unless_unparseable_witness :
    ∃ s' dg, settingsC1w.merge_imports envC1 fsC1w = .ok s' [pMissC1, pBadSchemaC1] dg :=
  merge_imports_ok_unless_unparseable envC1 fsC1w settingsC1w [pMissC1, pBadSchemaC1]
    rfl
    (by
      intro p hp hex
      rcases List.mem_cons.mp hp with rfl | hp2
      · exact absurd hex (by decide)
      · rcases List.mem_cons.mp hp2 with rfl | hp3
        · exact ⟨.str "not a table", rfl⟩
        · exact absurd hp3 (List.not_mem_nil _))

/-! ### Claim C2 -/

def cfgFileC2 : FsPath := ⟨true, ["cfg", "bombadil.toml"]⟩
def envC2 : Env := ⟨some ⟨true, ["home"]⟩, some ⟨true, ["cfg"]⟩⟩
def fsC2 : Fs := ⟨[], [(cfgFileC2, .doc (.table [("dotfiles_dir", .str "/nodots")]))]⟩
def settingsC2 : Settings := ⟨⟨true, ["nodots"]⟩, none, ⟨[], [], [], []⟩, [], []⟩

/-- C2 counterexample: the root file parses successfully, its `dotfiles_dir`
(`/nodots`) does not exist on disk, and yet `Settings::get` returns `Ok` with
a settings value — `get` never invokes the `DotfilesDirMissing` check when no
relative import forces it to. -/
theorem get_ok_despite_missing_dotfiles_dir :
    Settings.get envC2 fsC2 = .ok settingsC2 ∧
    settingsC2.get_dotfiles_path envC2 fsC2 =
      .error (.dotfilesDirMissing ⟨true, ["nodots"]⟩) :=
  ⟨rfl, rfl⟩

/-- C2 (amended): when the home directory resolves and the composed dotfiles
path does not exist on disk, it is `get_dotfiles_path` that fails with
`DotfilesDirMissing`; `Settings::get` itself does not surface this check —
with only absolute import paths the import resolution proceeds without ever
consulting the dotfiles root (so the load can succeed). -/
theorem dotfilesDirMissing_from_get_dotfiles_path_only (env : Env) (fs : Fs)
    (s : Settings) (home : FsPath) (hh : env.homeDir = some home)
    (hne : fs.pathExists
      (if s.dotfiles_dir.absolute then s.dotfiles_dir else home.join s.dotfiles_dir)
      = false) :
    s.get_dotfiles_path env fs =
      .error (.dotfilesDirMissing
        (if s.dotfiles_dir.absolute then s.dotfiles_dir else home.join s.dotfiles_dir)) ∧
    ((s.imports.all fun ip => ip.path.absolute) = true →
      s.resolveImportPaths env fs = some (s.imports.map ImportPath.path)) := by
  constructor
  · simp only [Settings.get_dotfiles_path, hh]
    rw [if_neg (by rw [hne]; exact Bool.false_ne_true)]
  · intro hall
    unfold Settings.resolveImportPaths
    have h := traverseOption_eq_map (resolveOne env fs s) id
      (s.imports.map ImportPath.path)
      (by
        intro p hp
        obtain ⟨ip, hip, rfl⟩ := List.mem_map.mp hp
        have habs : ip.path.absolute = true := List.all_eq_true.mp hall ip hip
        simp [resolveOne, habs])
    rw [h, List.map_id]

def envC2w : Env := ⟨some ⟨true, ["home"]⟩, none⟩
def fsC2w : Fs := ⟨[], []⟩
def impC2w : ImportPath := ⟨⟨true, ["imp.toml"]⟩⟩
def settingsC2w : Settings := ⟨⟨true, ["nodots"]⟩, none, ⟨[], [], [], []⟩, [], [impC2w]⟩

/-- C2 witness: a settings value with a non-existing absolute `dotfiles_dir`
and one absolute import — `get_dotfiles_path` fails with `DotfilesDirMissing`
while the import paths still resolve. -/
theorem dotfilesDirMissing_from_get_dotfiles_path_only_witness :
    settingsC2w.get_dotfiles_path envC2w fsC2w =
      .error (.dotfilesDirMissing ⟨true, ["nodots"]⟩) ∧
    settingsC2w.resolveImportPaths envC2w fsC2w = some [⟨true, ["imp.toml"]⟩] :=
  ⟨(dotfilesDirMissing_from_get_dotfiles_path_only envC2w fsC2w settingsC2w
      ⟨true, ["home"]⟩ rfl (by decide)).1,
   (dotfilesDirMissing_from_get_dotfiles_path_only envC2w fsC2w settingsC2w
      ⟨true, ["home"]⟩ rfl (by decide)).2 (by decide)⟩

/-! ### Claim C3 -/

def envC3 : Env := ⟨none, some ⟨true, ["cfg"]⟩⟩
def dotsDirC3 : FsPath := ⟨true, ["dots"]⟩
def fsC3 : Fs := ⟨[dotsDirC3], []⟩
def settingsC3 : Settings := ⟨dotsDirC3, none, ⟨[], [], [], []⟩, [], []⟩

/-- C3 counterexample: `get_dotfiles_path` checks `dirs::home_dir()` before
the absolute/relative branch, so even an absolute `dotfiles_dir` that exists
on disk fails with `HomeNotFound` when no home directory resolves. -/
theorem home_check_precedes_absolute_branch :
    settingsC3.dotfiles_dir.absolute = true ∧
    fsC3.pathExists settingsC3.dotfiles_dir = true ∧
    settingsC3.get_dotfiles_path envC3 fsC3 = .error .homeNotFound :=
  ⟨rfl, rfl, rfl⟩

/-- C3 (amended): `get_dotfiles_path` fails with `HomeNotFound` whenever the
home directory cannot be resolved, regardless of whether `dotfiles_dir` is
absolute; when the home directory does resolve and `dotfiles_dir` is absolute
and exists on disk, the operation succeeds with that path as-is. -/
theorem get_dotfiles_path_home_first (env : Env) (fs : Fs) (s : Settings) :
    (env.homeDir = none → s.get_dotfiles_path env fs = .error .homeNotFound) ∧
    (∀ home, env.homeDir = some home → s.dotfiles_dir.absolute = true →
      fs.pathExists s.dotfiles_dir = true →
      s.get_dotfiles_path env fs = .ok s.dotfiles_dir) := by
  constructor
  · intro h
    simp only [Settings.get_dotfiles_path, h]
  · intro home hh habs hex
    simp only [Settings.get_dotfiles_path, hh, habs, if_true, if_pos hex]

def envC3w : Env := ⟨some ⟨true, ["home"]⟩, none⟩

/-- C3 witness: both parts of the amended statement at concrete inputs. -/
theorem get_dotfiles_path_home_first_witness :
    settingsC3.get_dotfiles_path envC3 fsC3 = .error .homeNotFound ∧
    settingsC3.get_dotfiles_path envC3w fsC3 = .ok dotsDirC3 :=
  ⟨(get_dotfiles_path_home_first envC3 fsC3 settingsC3).1 rfl,
   (get_dotfiles_path_home_first envC3w fsC3 settingsC3).2 ⟨true, ["home"]⟩ rfl rfl rfl⟩

/-! ### Claim C4 -/

/-- C4: `merge` appends the fragment's prehooks, posthooks, vars and import
entries after the root's in order with no deduplication, and replaces the
`dots` and `profiles` maps by key-wise union in which the fragment's entry
overwrites the root's on key collision (no field-level sub-merge). The
`Nodup` hypotheses state the `HashMap` key-uniqueness invariant of the
fragment's maps. -/
theorem merge_appends_lists_and_overwrites_maps (r : Settings)
    (f : ImportedSettings) (k : String)
    (hd : (f.settings.dots.map Prod.fst).Nodup)
    (hp : (f.profiles.map Prod.fst).Nodup) :
    (r.merge f).settings.prehooks = r.settings.prehooks ++ f.settings.prehooks ∧
    (r.merge f).settings.posthooks = r.settings.posthooks ++ f.settings.posthooks ∧
    (r.merge f).settings.vars = r.settings.vars ++ f.settings.vars ∧
    (r.merge f).imports = r.imports ++ f.imports ∧
    lookupKV (r.merge f).settings.dots k =
      overrideUnion r.settings.dots f.settings.dots k ∧
    lookupKV (r.merge f).profiles k = overrideUnion r.profiles f.profiles k := by
  refine ⟨rfl, rfl, rfl, rfl, ?_, ?_⟩
  · show lookupKV (extendKV r.settings.dots f.settings.dots) k = _
    exact lookupKV_extendKV _ _ k hd
  · show lookupKV (extendKV r.profiles f.profiles) k = _
    exact lookupKV_extendKV _ _ k hp

def rC4 : Settings :=
  ⟨⟨true, ["d"]⟩, some "id",
    ⟨[("x", ⟨.str "rootdot"⟩)], ["rpre"], ["rpost"], [⟨false, ["rv"]⟩]⟩,
    [("p", ⟨[], [], ["rp"], [], []⟩)], [⟨⟨true, ["ri.toml"]⟩⟩]⟩
def fC4 : ImportedSettings :=
  ⟨⟨[("x", ⟨.str "fragdot"⟩)], ["fpre"], ["fpost"], [⟨false, ["fv"]⟩]⟩,
    [("p", ⟨[], [], ["fp"], [], []⟩)], [⟨⟨true, ["fi.toml"]⟩⟩]⟩

/-- C4 witness: a root and a fragment with colliding `dots` and `profiles`
keys — lists append, the fragment's map entries win. -/
theorem merge_appends_lists_and_overwrites_maps_witness :
    (rC4.merge fC4).settings.prehooks = rC4.settings.prehooks ++ fC4.settings.prehooks ∧
    (rC4.merge fC4).settings.posthooks = rC4.settings.posthooks ++ fC4.settings.posthooks ∧
    (rC4.merge fC4).settings.vars = rC4.settings.vars ++ fC4.settings.vars ∧
    (rC4.merge fC4).imports = rC4.imports ++ fC4.imports ∧
    lookupKV (rC4.merge fC4).settings.dots "x" =
      overrideUnion rC4.settings.dots fC4.settings.dots "x" ∧
    lookupKV (rC4.merge fC4).profiles "x" =
      overrideUnion rC4.profiles fC4.profiles "x" :=
  merge_appends_lists_and_overwrites_maps rC4 fC4 "x" (by decide) (by decide)

/-! ### Claim C5 -/

/-- C5: the path attempted on disk for an import entry is the entry's path
itself when absolute, and otherwise the resolved dotfiles root joined with
the entry's path — nothing else enters the computation. -/
theorem import_paths_resolve_against_dotfiles_root (env : Env) (fs : Fs)
    (s : Settings) (root : FsPath)
    (h : s.get_dotfiles_path env fs = .ok root) :
    s.resolveImportPaths env fs =
      some (s.imports.map
        (fun ip => if ip.path.absolute then ip.path else root.join ip.path)) := by
  unfold Settings.resolveImportPaths
  rw [show s.imports.map (fun ip => if ip.path.absolute then ip.path else root.join ip.path)
      = (s.imports.map ImportPath.path).map (fun p => if p.absolute then p else root.join p)
    from by rw [List.map_map]; rfl]
  apply traverseOption_eq_map
  intro p hp
  by_cases habs : p.absolute = true
  · simp [resolveOne, habs]
  · simp [resolveOne, habs, h]

def dotsRootC5 : FsPath := ⟨true, ["home", "dots"]⟩
def envC5 : Env := ⟨some ⟨true, ["home"]⟩, none⟩
def fsC5 : Fs := ⟨[dotsRootC5], []⟩
def settingsC5 : Settings :=
  ⟨⟨false, ["dots"]⟩, none, ⟨[], [], [], []⟩, [],
    [⟨⟨true, ["abs.toml"]⟩⟩, ⟨⟨false, ["rel.toml"]⟩⟩]⟩

/-- C5 witness: one absolute and one relative import entry; the relative one
is anchored at the dotfiles root (`/home/dots`), not anywhere else. -/
theorem import_paths_resolve_against_dotfiles_root_witness :
    settingsC5.get_dotfiles_path envC5 fsC5 = .ok dotsRootC5 ∧
    settingsC5.resolveImportPaths envC5 fsC5 =
      some [⟨true, ["abs.toml"]⟩, ⟨true, ["home", "dots", "rel.toml"]⟩] :=
  ⟨rfl, by
    have h := import_paths_resolve_against_dotfiles_root envC5 fsC5 settingsC5
      dotsRootC5 rfl
    rw [h]
    rfl⟩

/-! ### Claim C6 -/

/-- C6: import resolution is single-pass — when `merge_imports` returns `Ok`,
the attempted paths are exactly the resolution of the import list as it stood
before any merge, and a fragment's own import entries are only appended after
the root's initial ones, never themselves loaded in the same pass. -/
theorem import_resolution_single_pass (env : Env) (fs : Fs) (s s' : Settings)
    (paths att : List FsPath) (dg : List Diag)
    (hres : s.resolveImportPaths env fs = some paths)
    (hok : s.merge_imports env fs = .ok s' att dg) :
    att = paths ∧ ∃ t, s'.imports = s.imports ++ t := by
  have hgo : mergeImportsGo fs paths s = .ok s' att dg := by
    simpa only [Settings.merge_imports, hres] using hok
  exact ⟨mergeImportsGo_ok_attempted fs paths s s' att dg hgo,
    mergeImportsGo_ok_imports fs paths s s' att dg hgo⟩

def pAC6 : FsPath := ⟨true, ["a.toml"]⟩
def pBC6 : FsPath := ⟨true, ["b.toml"]⟩
def envC6 : Env := ⟨none, none⟩
def fsC6 : Fs :=
  ⟨[], [(pAC6, .doc (.table [("import", .arr [.table [("path", .str "/b.toml")]])])),
        (pBC6, .doc (.table [("prehooks", .arr [.str "never run"])]))]⟩
def settingsC6 : Settings :=
  ⟨⟨true, ["dots"]⟩, none, ⟨[], [], [], []⟩, [], [⟨pAC6⟩]⟩

/-- C6 witness: the fragment at `/a.toml` contributes an import of
`/b.toml`, which exists on disk — yet only `/a.toml` is attempted, and
`/b.toml` merely ends up appended to the import list. -/
theorem import_resolution_single_pass_witness :
    [pAC6] = [pAC6] ∧
    ∃ t, (settingsC6.merge ⟨⟨[], [], [], []⟩, [], [⟨pBC6⟩]⟩).imports
      = settingsC6.imports ++ t :=
  Bombadil.import_resolution_single_pass envC6 fsC6 settingsC6
    (settingsC6.merge ⟨⟨[], [], [], []⟩, [], [⟨pBC6⟩]⟩) [pAC6] [pAC6] []
    rfl rfl

/-! ### Claim C7 -/

def rC7 : Settings := ⟨⟨true, ["d"]⟩, none, ⟨[], ["rpre"], [], []⟩, [], []⟩
def fC7 : ImportedSettings := ⟨⟨[], ["fpre"], [], []⟩, [], []⟩

/-- C7 counterexample: with a root whose `prehooks` is non-empty, merging the
same fragment twice does not leave the list at "twice the length it would
have after one merge" — it is root + 2·fragment (3), not 2·(root + fragment)
(4). -/
theorem double_merge_length_not_doubled :
    ((rC7.merge fC7).merge fC7).settings.prehooks.length = 3 ∧
    (rC7.merge fC7).settings.prehooks.length = 2 ∧
    ((rC7.merge fC7).merge fC7).settings.prehooks.length ≠
      2 * (rC7.merge fC7).settings.prehooks.length :=
  ⟨rfl, rfl, by decide⟩

/-- C7 (amended): merging the same fragment twice leaves each list field at
the root's original length plus exactly twice the fragment's length (the
second merge adds the fragment's entries again, with no deduplication), while
the `dots` and `profiles` maps are identical after the second merge to their
state after the first (map overwrite is idempotent for identical content).
The `Nodup` hypotheses state the fragment maps' `HashMap` key uniqueness. -/
theorem double_merge_adds_fragment_lists_twice (r : Settings)
    (f : ImportedSettings)
    (hd : (f.settings.dots.map Prod.fst).Nodup)
    (hp : (f.profiles.map Prod.fst).Nodup) :
    ((r.merge f).merge f).settings.prehooks.length
      = r.settings.prehooks.length + 2 * f.settings.prehooks.length ∧
    ((r.merge f).merge f).settings.posthooks.length
      = r.settings.posthooks.length + 2 * f.settings.posthooks.length ∧
    ((r.merge f).merge f).settings.vars.length
      = r.settings.vars.length + 2 * f.settings.vars.length ∧
    ((r.merge f).merge f).imports.length
      = r.imports.length + 2 * f.imports.length ∧
    ((r.merge f).merge f).settings.dots = (r.merge f).settings.dots ∧
    ((r.merge f).merge f).profiles = (r.merge f).profiles := by
  refine ⟨?_, ?_, ?_, ?_, ?_, ?_⟩
  · simp [Settings.merge]; omega
  · simp [Settings.merge]; omega
  · simp [Settings.merge]; omega
  · simp [Settings.merge]; omega
  · exact extendKV_extendKV_self _ _ hd
  · exact extendKV_extendKV_self _ _ hp

/-- C7 witness: the amended statement at the counterexample's concrete root
and fragment. -/
theorem double_merge_adds_fragment_lists_twice_witness :
    ((rC7.merge fC7).merge fC7).settings.prehooks.length
      = rC7.settings.prehooks.length + 2 * fC7.settings.prehooks.length ∧
    ((rC7.merge fC7).merge fC7).settings.posthooks.length
      = rC7.settings.posthooks.length + 2 * fC7.settings.posthooks.length ∧
    ((rC7.merge fC7).merge fC7).settings.vars.length
      = rC7.settings.vars.length + 2 * fC7.settings.vars.length ∧
    ((rC7.merge fC7).merge fC7).imports.length
      = rC7.imports.length + 2 * fC7.imports.length ∧
    ((rC7.merge fC7).merge fC7).settings.dots = (rC7.merge fC7).settings.dots ∧
    ((rC7.merge fC7).merge fC7).profiles = (rC7.merge fC7).profiles :=
  double_merge_adds_fragment_lists_twice rC7 fC7 (by decide) (by decide)

/-! ### Claim C8 -/

/-- C8: `ImportedSettings` structurally lacks `dotfiles_dir` and
`gpg_user_id`, and `merge` never touches them — no sequence of merges can
alter the dotfiles root or the identity string of the root settings. -/
theorem merge_preserves_dotfiles_dir_and_gpg_user_id (r : Settings)
    (frs : List ImportedSettings) :
    (frs.foldl Settings.merge r).dotfiles_dir = r.dotfiles_dir ∧
    (frs.foldl Settings.merge r).gpg_user_id = r.gpg_user_id := by
  induction frs generalizing r with
  | nil => exact ⟨rfl, rfl⟩
  | cons f rest ih => exact ih (r.merge f)

/-! ### Claim C9 -/

/-- C9: schema strictness is asymmetric — a root configuration document with
an unknown top-level field always fails to deserialize (producing no
settings value), while the imported-fragment deserializer silently ignores
the same unknown field. -/
theorem root_schema_strict_fragment_schema_permissive (k : String) (v : Toml)
    (kvs : List (String × Toml))
    (hmem : (k, v) ∈ kvs) (hk : k ∉ settingsFieldNames) :
    deserializeSettings (.table kvs) = none ∧
    ∀ kvs2, deserializeImported (.table ((k, v) :: kvs2)) =
      deserializeImported (.table kvs2) := by
  constructor
  · have hall : kvs.all (fun kv => decide (kv.1 ∈ settingsFieldNames)) = false := by
      cases hall : kvs.all (fun kv => decide (kv.1 ∈ settingsFieldNames)) with
      | false => rfl
      | true =>
        have := List.all_eq_true.mp hall (k, v) hmem
        exact absurd (of_decide_eq_true this) hk
    simp only [deserializeSettings]
    rw [if_neg (by rw [hall]; exact Bool.false_ne_true)]
  · intro kvs2
    have h1 : k ≠ "settings" := fun he => hk (he ▸ by simp [settingsFieldNames])
    have h2 : k ≠ "profiles" := fun he => hk (he ▸ by simp [settingsFieldNames])
    have h3 : k ≠ "import" := fun he => hk (he ▸ by simp [settingsFieldNames])
    simp only [deserializeImported, decodeFieldD, lookupKV,
      if_neg h1, if_neg h2, if_neg h3]

def kvsC9 : List (String × Toml) :=
  [("dotfiles_dir", .str "/d"), ("unknown_key", .str "x")]

/-- C9 witness: a document carrying `unknown_key` is rejected by the root
deserializer and ignored by the fragment deserializer. -/
theorem root_schema_strict_fragment_schema_permissive_witness :
    deserializeSettings (.table kvsC9) = none ∧
    deserializeImported (.table [("unknown_key", Toml.str "x")]) =
      deserializeImported (.table []) :=
  ⟨(root_schema_strict_fragment_schema_permissive "unknown_key" (.str "x") kvsC9
      (List.mem_cons_of_mem _ (List.mem_cons_self _ _)) (by decide)).1,
   (root_schema_strict_fragment_schema_permissive "unknown_key" (.str "x") kvsC9
      (List.mem_cons_of_mem _ (List.mem_cons_self _ _)) (by decide)).2 []⟩

/-! ### Claim C10 -/

/-- C10: `merge_imports` unconditionally unwraps `get_dotfiles_path` while
resolving a relative import entry, so whenever the import list contains a
relative path and the home directory cannot be resolved or the composed
dotfiles path does not exist on disk, the operation panics instead of
returning an `Err` or emitting a diagnostic. -/
theorem merge_imports_panics_on_unresolvable_relative_import (env : Env)
    (fs : Fs) (s : Settings) (ip : ImportPath) (e : SettingsError)
    (hmem : ip ∈ s.imports) (hrel : ip.path.absolute = false)
    (hfail : s.get_dotfiles_path env fs = .error e) :
    s.merge_imports env fs = .panicked := by
  have hres : s.resolveImportPaths env fs = none := by
    apply traverseOption_eq_none _ _ ip.path (List.mem_map.mpr ⟨ip, hmem, rfl⟩)
    simp [resolveOne, hrel, hfail]
  simp only [Settings.merge_imports, hres]

def envC10 : Env := ⟨none, none⟩
def fsC10 : Fs := ⟨[], []⟩
def impC10 : ImportPath := ⟨⟨false, ["rel.toml"]⟩⟩
def settingsC10 : Settings :=
  ⟨⟨false, ["dots"]⟩, none, ⟨[], [], [], []⟩, [], [impC10]⟩

/-- C10 witness: a relative import entry with no resolvable home directory —
`merge_imports` panics. -/
theorem merge_imports_panics_on_unresolvable_relative_import_witness :
    settingsC10.merge_imports envC10 fsC10 = .panicked :=
  merge_imports_panics_on_unresolvable_relative_import envC10 fsC10 settingsC10
    impC10 .homeNotFound (List.mem_cons_self _ _) rfl rfl

end Bombadil
